import Mathlib

/-!
Verification of the vortludo word-guessing game server.

Shallow embedding of the Go sources:
* `internal/game/game.go` — scoring (`CheckGuess`), the game-state transition
  (`UpdateGameState`), game creation (`CreateNewGame`,
  `CreateNewGameWithCompletedWords`), word selection
  (`GetRandomWordEntry`, `GetRandomWordEntryExcluding`).
* `handlers.go` — the guess-submission flow (`GuessHandler` / `ProcessGuess` /
  `ValidateGameState` / `NormalizeGuess`), `RetryWordHandler`.
* `session.go` — `GetGameState` (get-or-create) and the session sweep.
* `main.go` — `cleanupStaleSessions`, `cleanupStaleRateLimiters`.
* `middleware.go` — `getLimiter` refill-rate guard.

Go `time.Time` values are modelled as `Int` (comparisons only;
`time.Time.Before` is strict `<`).  Go maps are modelled as association
lists; the map nondeterminism of iteration order is irrelevant to the
properties proved (counts, membership, ordering by access time).  The
cryptographically random draw `rand.Int(rand.Reader, n)` is modelled by an
extra `rnd : Nat` parameter; a draw `rnd` that is out of range models the
fallback paths (context cancellation / randomness failure), which in the Go
code return index 0.
-/

namespace Vortludo

/-- MaxGuesses constant from `constants.go`. -/
def maxGuesses : Nat := 6

/-- WordLength constant from `constants.go`. -/
def wordLength : Nat := 5

/-- Status string constants from `constants.go`. -/
def guessStatusCorrect : String := "correct"

/-- Status string for a letter present elsewhere in the target. -/
def guessStatusPresent : String := "present"

/-- Status string for a letter absent from the target. -/
def guessStatusAbsent : String := "absent"

/-- Error code constants from `constants.go`. -/
def errorCodeGameOver : String := "game_over"

/-- Error code for a guess of the wrong length. -/
def errorCodeInvalidLength : String := "invalid_length"

/-- Error code when all rows are used up. -/
def errorCodeNoMoreGuesses : String := "no_more_guesses"

/-- Error code for a guess outside the accepted vocabulary. -/
def errorCodeWordNotAccepted : String := "word_not_accepted"

/-- Error code for a repeated guess. -/
def errorCodeDuplicateGuess : String := "duplicate_guess"

/-- WordEntry from `types.go`: a target word together with its hint. -/
structure WordEntry where
  word : String
  hint : String
deriving DecidableEq, Repr, Inhabited

/-- GuessResult from `types.go`: one scored letter.  The Go zero value is
`{Letter: "", Status: ""}`, so both fields are strings. -/
structure GuessResult where
  letter : String
  status : String
deriving DecidableEq, Repr, Inhabited

/-- GameState from `types.go`.  `lastAccessTime` is modelled as `Int`. -/
structure GameState where
  guesses : List (List GuessResult)
  currentRow : Nat
  gameOver : Bool
  won : Bool
  targetWord : String
  sessionWord : String
  guessHistory : List String
  lastAccessTime : Int
deriving DecidableEq, Repr

/-! ## Scoring engine: `CheckGuess` (game.go lines 161–223)

The Go code walks `i` over the five positions twice.  Pass 1 marks exact
matches `guess[i] == target[i]` as `correct` and blanks the consumed target
position with `' '`.  Pass 2, for every still unmarked position, scans the
blanked target copy left to right for the guess letter; on a hit it marks
`present` and blanks that occurrence, otherwise it marks `absent`.
The pooled rune buffer is a performance detail with no observable effect
(it is copied from `target` before use), so it is not modelled. -/

/-- Target copy after pass 1: positions with an exact match are blanked
with `' '` (game.go lines 184–189, the `targetCopy[i] = ' '` writes). -/
def pass1Target (g t : List Char) : List Char :=
  List.zipWith (fun gc tc => if gc = tc then ' ' else tc) g t

/-- Per-position pass-1 marks: `some "correct"` where `guess[i] == target[i]`,
`none` (the Go empty status string) elsewhere. -/
def pass1Marks (g t : List Char) : List (Option String) :=
  List.zipWith (fun gc tc => if gc = tc then some guessStatusCorrect else none) g t

/-- Inner scan of pass 2 (game.go lines 197–204): find the first position of
the blanked target copy holding the guessed letter; consume it by writing
`' '`.  Returns `none` when the letter does not occur. -/
def consumeFirst (c : Char) : List Char → Option (List Char)
  | [] => none
  | t :: ts =>
    if t = c then some (' ' :: ts)
    else
      match consumeFirst c ts with
      | some ts' => some (t :: ts')
      | none => none

/-- Pass 2 (game.go lines 191–210): walk the positions left to right,
keeping pass-1 marks, otherwise marking `present` (consuming the first
matching target occurrence) or `absent`.  Returns the status list and the
final target copy. -/
def pass2 : List Char → List (Option String) → List Char → List String × List Char
  | gc :: gs, m :: ms, tc =>
    match m with
    | some s =>
      let r := pass2 gs ms tc
      (s :: r.1, r.2)
    | none =>
      match consumeFirst gc tc with
      | some tc' =>
        let r := pass2 gs ms tc'
        (guessStatusPresent :: r.1, r.2)
      | none =>
        let r := pass2 gs ms tc
        (guessStatusAbsent :: r.1, r.2)
  | _, _, tc => ([], tc)

/-- CheckGuess (game.go lines 161–223).  Both strings are taken as their
character lists; the five-letter catalog words are ASCII, so the Go mix of
byte indexing (`guess[i]`) and rune copies agrees with the char-level view. -/
def checkGuess (g t : List Char) : List GuessResult :=
  let statuses := (pass2 g (pass1Marks g t) (pass1Target g t)).1
  List.zipWith (fun gc s => GuessResult.mk gc.toString s) g statuses

/-! ## Game state transition: `UpdateGameState` (game.go lines 124–159) -/

/-- UpdateGameState (game.go lines 124–159).  `now` models `time.Now()`.
Mirrors the Go control flow: the `currentRow >= MaxGuesses` guard, the row
write and history append, the win test `!isInvalid && guess == targetWord`,
the row increment with the loss test, and the final
`if game.GameOver { game.TargetWord = targetWord }`. -/
def updateGameState (game : GameState) (guess targetWord : String)
    (result : List GuessResult) (isInvalid : Bool) (now : Int) : GameState :=
  if game.currentRow ≥ maxGuesses then game
  else
    let g1 : GameState :=
      { game with
        guesses := game.guesses.set game.currentRow result
        guessHistory := game.guessHistory ++ [guess]
        lastAccessTime := now }
    let g2 : GameState :=
      if !isInvalid ∧ guess = targetWord then
        { g1 with won := true, gameOver := true }
      else
        let g1' : GameState := { g1 with currentRow := g1.currentRow + 1 }
        if g1'.currentRow ≥ maxGuesses then { g1' with gameOver := true } else g1'
    if g2.gameOver then { g2 with targetWord := targetWord } else g2

/-! ## Word selection (game.go lines 16–95) -/

/-- GetRandomWordEntry (game.go lines 16–44).  `rnd` is the random draw; an
out-of-range draw models the cancellation / randomness-failure fallback,
which returns `WordList[0]`. -/
def getRandomWordEntry (wl : List WordEntry) (rnd : Nat) : WordEntry :=
  wl.getD rnd (wl.headD default)

/-- GetRandomWordEntryExcluding (game.go lines 46–95): with no completed
words, defer to `getRandomWordEntry`; otherwise filter the catalog by
`!slices.Contains(completedWords, entry.Word)`; if nothing remains, signal
exhaustion with a draw from the full catalog, else draw from the filtered
list (fallback paths return `availableWords[0]`). -/
def getRandomWordEntryExcluding (wl : List WordEntry) (completedWords : List String)
    (rnd : Nat) : WordEntry × Bool :=
  if completedWords.length = 0 then (getRandomWordEntry wl rnd, false)
  else
    let availableWords := wl.filter (fun e => !(completedWords.contains e.word))
    if availableWords.length = 0 then (getRandomWordEntry wl rnd, true)
    else (availableWords.getD rnd (availableWords.headD default), false)

/-! ## Game creation and retry -/

/-- Empty board rows built by `lo.Times` in `CreateNewGame` (game.go
lines 238–240): `MaxGuesses` rows of `WordLength` zero-value results. -/
def emptyGuesses : List (List GuessResult) :=
  List.replicate maxGuesses (List.replicate wordLength (GuessResult.mk "" ""))

/-- CreateNewGame (game.go lines 235–253), the produced GameState.  The
store into `app.GameSessions` is modelled separately for the concurrency
analysis of `GetGameState`. -/
def createNewGame (wl : List WordEntry) (rnd : Nat) (now : Int) : GameState :=
  let selectedEntry := getRandomWordEntry wl rnd
  { guesses := emptyGuesses
    currentRow := 0
    gameOver := false
    won := false
    targetWord := ""
    sessionWord := selectedEntry.word
    guessHistory := []
    lastAccessTime := now }

/-- CreateNewGameWithCompletedWords (game.go lines 255–275), the produced
GameState together with the `needsReset` flag. -/
def createNewGameWithCompletedWords (wl : List WordEntry) (completedWords : List String)
    (rnd : Nat) (now : Int) : GameState × Bool :=
  let sel := getRandomWordEntryExcluding wl completedWords rnd
  ({ guesses := emptyGuesses
     currentRow := 0
     gameOver := false
     won := false
     targetWord := ""
     sessionWord := sel.1.word
     guessHistory := []
     lastAccessTime := now }, sel.2)

/-- RetryWordHandler (handlers.go): the fresh GameState it installs for an
existing session, preserving only `sessionWord`. -/
def retryWord (old : GameState) (now : Int) : GameState :=
  { guesses := emptyGuesses
    currentRow := 0
    gameOver := false
    won := false
    targetWord := ""
    sessionWord := old.sessionWord
    guessHistory := []
    lastAccessTime := now }

/-! ## Guess submission flow (handlers.go: GuessHandler / ValidateGameState /
NormalizeGuess / ProcessGuess) -/

/-- Word catalog slice of the `App` struct (`types.go`): the loaded word
list, the target-word set and the accepted-guess set, modelled as lists. -/
structure AppModel where
  wordList : List WordEntry
  wordSet : List String
  acceptedWordSet : List String
deriving Repr

/-- IsValidWord (game.go lines 225–228): membership in `app.WordSet`. -/
def isValidWord (app : AppModel) (word : String) : Prop :=
  word ∈ app.wordSet

instance (app : AppModel) (word : String) : Decidable (isValidWord app word) := by
  unfold isValidWord; infer_instance

/-- IsAcceptedWord (game.go lines 230–233): membership in
`app.AcceptedWordSet`. -/
def isAcceptedWord (app : AppModel) (word : String) : Prop :=
  word ∈ app.acceptedWordSet

instance (app : AppModel) (word : String) : Decidable (isAcceptedWord app word) := by
  unfold isAcceptedWord; infer_instance

/-- Character-level rendering of `strings.TrimSpace`: drop leading and
trailing whitespace. -/
def trimChars (cs : List Char) : List Char :=
  ((cs.dropWhile Char.isWhitespace).reverse.dropWhile Char.isWhitespace).reverse

/-- NormalizeGuess (handlers.go): `strings.ToUpper(strings.TrimSpace(input))`,
realized on the character list (the guesses at issue are ASCII, where
`Char.toUpper` agrees with Go's `strings.ToUpper`). -/
def normalizeGuess (input : String) : String :=
  String.mk ((trimChars input.data).map Char.toUpper)

/-- GetTargetWord (game.go lines 115–122): returns `game.SessionWord`,
backfilling it with a random word first when it is empty.  The mutation is
modelled by returning the (possibly repaired) state. -/
def getTargetWordState (wl : List WordEntry) (game : GameState) (rnd : Nat) : GameState :=
  if game.sessionWord = "" then
    { game with sessionWord := (getRandomWordEntry wl rnd).word }
  else game

/-- Guess-submission flow for one session, in the exact order of the Go
code: `ValidateGameState` (game-over check), `NormalizeGuess`, the
accepted-word check and the duplicate check in `GuessHandler`
(handlers.go lines 250–281), then the length check and the
`CurrentRow >= MaxGuesses` check in `ProcessGuess` (lines 378–389), and
finally `GetTargetWord` / `CheckGuess` / `UpdateGameState`.  The second
component is the error code surfaced to the client (`none` on success);
every error path leaves the state untouched, exactly as the Go code
returns before mutating. -/
def submitGuess (app : AppModel) (state : GameState) (rawGuess : String)
    (rnd : Nat) (now : Int) : GameState × Option String :=
  if state.gameOver then (state, some errorCodeGameOver)
  else
    let guess := normalizeGuess rawGuess
    if ¬ isAcceptedWord app guess then (state, some errorCodeWordNotAccepted)
    else if guess ∈ state.guessHistory then (state, some errorCodeDuplicateGuess)
    else if guess.length ≠ wordLength then (state, some errorCodeInvalidLength)
    else if state.currentRow ≥ maxGuesses then (state, some errorCodeNoMoreGuesses)
    else
      let state1 := getTargetWordState app.wordList state rnd
      let targetWord := state1.sessionWord
      let isInvalid := ¬ isValidWord app guess
      let result := checkGuess guess.toList targetWord.toList
      (updateGameState state1 guess targetWord result (decide isInvalid) now, none)

/-! ## Session cache get-or-create race (`session.go` `GetGameState`)

`GetGameState` looks the session up under the shared (`RLock`) lock; on a
hit it touches `LastAccessTime` under the exclusive lock and returns; on a
miss it calls `game.CreateNewGame`, which allocates a fresh GameState and
stores it into `app.GameSessions` — without taking any lock and without
re-checking whether another flow created the entry in the meantime.

The model tracks, for one fixed previously-unseen sessionId, whether the
map has an entry and how many times `CreateNewGame` ran.  Each call to
`GetGameState` is a thread with a program counter:
pc 0 — about to perform the `RLock` lookup;
pc 1 — the lookup missed, about to run `CreateNewGame`;
pc 2 — returned.
Each step is one lock-protected (or, for the unlocked store, one
indivisible) region of the Go code; coarser atomicity only strengthens the
conclusion, since the real unlocked map write allows even more behaviours. -/

/-- Shared state of the session cache for one sessionId. -/
structure SessionCacheModel where
  hasEntry : Bool
  createCount : Nat
deriving DecidableEq, Repr

/-- One atomic step of a `GetGameState` call (see the section comment). -/
def getGameStateStep (c : SessionCacheModel) (pc : Nat) : SessionCacheModel × Nat :=
  match pc with
  | 0 => if c.hasEntry then (c, 2) else (c, 1)
  | 1 => ({ hasEntry := true, createCount := c.createCount + 1 }, 2)
  | _ => (c, pc)

/-- Run two concurrent `GetGameState` calls under a schedule: `true` steps
the first call, `false` the second. -/
def runTwoCalls : List Bool → SessionCacheModel → Nat → Nat →
    SessionCacheModel × Nat × Nat
  | [], c, p1, p2 => (c, p1, p2)
  | b :: rest, c, p1, p2 =>
    if b then
      let s := getGameStateStep c p1
      runTwoCalls rest s.1 s.2 p2
    else
      let s := getGameStateStep c p2
      runTwoCalls rest s.1 p1 s.2

/-! ## Cache sweeps (main.go lines 324–388) -/

/-- RateLimiterWithTime from the Go sources: a token-bucket limiter plus its
last access time.  The limiter internals are irrelevant to eviction and are
represented by an opaque identifier. -/
structure RateLimiterWithTime where
  limiterId : Nat
  lastAccess : Int
deriving DecidableEq, Repr

/-- cleanupStaleSessions (main.go lines 324–341): delete every session whose
`LastAccessTime.Before(cutoffTime)`; `cutoff` is `now - SessionTTL`. -/
def cleanupStaleSessions (sessions : List (String × GameState)) (cutoff : Int) :
    List (String × GameState) :=
  sessions.filter (fun kv => !decide (kv.2.lastAccessTime < cutoff))

/-- Comparison used by the emergency purge sort (main.go lines 371–373):
`limiters[i].lastAccess.Before(limiters[j].lastAccess)` ordering, taken
non-strictly for the merge sort. -/
def limiterLe (a b : String × RateLimiterWithTime) : Bool :=
  decide (a.2.lastAccess ≤ b.2.lastAccess)

/-- TTL-removal phase of cleanupStaleRateLimiters (main.go lines 347–355):
the entries surviving the `LastAccess.Before(cutoffTime)` deletions. -/
def limiterSurvivors (m : List (String × RateLimiterWithTime)) (cutoff : Int) :
    List (String × RateLimiterWithTime) :=
  m.filter (fun kv => !decide (kv.2.lastAccess < cutoff))

/-- Keys deleted by the emergency purge (main.go lines 360–379): the
survivors are sorted by `LastAccess` ascending and the first
`len(limiters) / 2` keys are removed. -/
def purgeVictims (m : List (String × RateLimiterWithTime)) (cutoff : Int) : List String :=
  (((limiterSurvivors m cutoff).mergeSort limiterLe).take
    ((limiterSurvivors m cutoff).length / 2)).map Prod.fst

/-- cleanupStaleRateLimiters (main.go lines 343–388): first remove every
entry whose `LastAccess` precedes the cutoff; then, if more than 10000
entries survive and more than 50000 survive, sort the survivors by
`LastAccess` ascending and delete the keys of the oldest half
(`len(limiters) / 2` entries). -/
def cleanupStaleRateLimiters (m : List (String × RateLimiterWithTime)) (cutoff : Int) :
    List (String × RateLimiterWithTime) :=
  if (limiterSurvivors m cutoff).length > 10000 then
    if (limiterSurvivors m cutoff).length > 50000 then
      (limiterSurvivors m cutoff).filter (fun kv => !((purgeVictims m cutoff).contains kv.1))
    else limiterSurvivors m cutoff
  else limiterSurvivors m cutoff

/-! ## Rate limiter creation guard (middleware.go `getLimiter`, lines 37–71) -/

/-- Requests-per-second value actually used by `getLimiter` when creating a
limiter (middleware.go lines 60–63): a configured value `<= 0` is replaced
by 1. -/
def effectiveRPS (rateLimitRPS : Int) : Int :=
  if rateLimitRPS ≤ 0 then 1 else rateLimitRPS

/-- Refill interval computation `time.Second / time.Duration(rps)`
(middleware.go line 64), in nanoseconds.  Go integer division by zero
panics, modelled by `none`. -/
def refillIntervalNs (rps : Int) : Option Int :=
  if rps = 0 then none else some (1000000000 / rps)

/-- Refill interval `getLimiter` computes for a fresh key, starting from the
configured `app.RateLimitRPS`. -/
def getLimiterRefillInterval (rateLimitRPS : Int) : Option Int :=
  refillIntervalNs (effectiveRPS rateLimitRPS)

/-! ## Auxiliary counting functions for the scoring analysis -/

/-- Number of positions in a scored row carrying letter `c` and scored
Correct or Present (the quantity bounded in the Wordle repeated-letter
guarantee). -/
def resultHitCount (c : Char) (rs : List GuessResult) : Nat :=
  rs.countP (fun r =>
    decide (r.letter = c.toString ∧
      (r.status = guessStatusCorrect ∨ r.status = guessStatusPresent)))

/-- Positional variant of `resultHitCount` over the guess characters and the
status list produced by `pass2`. -/
def hitCount (c : Char) : List Char → List String → Nat
  | gc :: gs, s :: ss =>
    (if gc = c ∧ (s = guessStatusCorrect ∨ s = guessStatusPresent) then 1 else 0)
      + hitCount c gs ss
  | _, _ => 0

/-- Number of positions with guess character `c` carrying a pass-1
`correct` mark. -/
def markedCorrect (c : Char) : List Char → List (Option String) → Nat
  | gc :: gs, m :: ms =>
    (if gc = c ∧ m = some guessStatusCorrect then 1 else 0) + markedCorrect c gs ms
  | _, _ => 0

/-- Invariant relating the revealed target to the terminal flag
(spec §3: `targetWord` is non-empty iff `gameOver=true`). -/
def targetInv (s : GameState) : Prop :=
  s.targetWord ≠ "" ↔ s.gameOver = true

/-! ## Concrete fixtures for counterexamples and witnesses -/

/-- Won terminal state: the player won on row 0, so `currentRow` is still 0
while `gameOver` and `won` are set and the target is revealed. -/
def wonState : GameState :=
  { guesses := emptyGuesses
    currentRow := 0
    gameOver := true
    won := true
    targetWord := "APPLE"
    sessionWord := "APPLE"
    guessHistory := ["APPLE"]
    lastAccessTime := 0 }

/-- Lost terminal state: all six rows consumed. -/
def lostState : GameState :=
  { guesses := emptyGuesses
    currentRow := maxGuesses
    gameOver := true
    won := false
    targetWord := "APPLE"
    sessionWord := "APPLE"
    guessHistory := ["AAAAA", "BBBBB", "CCCCC", "DDDDD", "EEEEE", "FFFFF"]
    lastAccessTime := 0 }

/-- Minimal catalog used by concrete evaluations: one target word. -/
def appFixture : AppModel :=
  { wordList := [⟨"APPLE", "fruit"⟩]
    wordSet := ["APPLE"]
    acceptedWordSet := ["APPLE", "OTHER"] }

/-- Fresh in-progress state for the word "APPLE". -/
def freshState : GameState :=
  { guesses := emptyGuesses
    currentRow := 0
    gameOver := false
    won := false
    targetWord := ""
    sessionWord := "APPLE"
    guessHistory := []
    lastAccessTime := 0 }

/-! ## Claim theorems -/

/-- C10: getLimiter is total for every configured requests-per-second value:
a nonpositive `RateLimitRPS` is replaced by 1, so the refill-interval
division `time.Second / time.Duration(rps)` always sees a positive divisor
and limiter creation never panics. -/
theorem C10_getLimiter_total (rateLimitRPS : Int) :
    0 < effectiveRPS rateLimitRPS ∧
    getLimiterRefillInterval rateLimitRPS
      = some (1000000000 / effectiveRPS rateLimitRPS) := by
  have h : 0 < effectiveRPS rateLimitRPS := by
    unfold effectiveRPS; split <;> omega
  refine ⟨h, ?_⟩
  unfold getLimiterRefillInterval refillIntervalNs
  rw [if_neg (by omega)]

/-- C2 race evaluation: for a previously-unseen sessionId, the interleaving
"call 1 lookup (miss), call 2 lookup (miss), call 1 CreateNewGame, call 2
CreateNewGame" is permitted by `GetGameState` — the miss path inserts
without the exclusive lock and without re-checking — and it creates two
GameStates for the one sessionId, violating the at-most-one guarantee. -/
theorem C2_race_two_creates :
    (runTwoCalls [true, false, true, false] ⟨false, 0⟩ 0 0).1.createCount = 2 ∧
    ¬ (runTwoCalls [true, false, true, false] ⟨false, 0⟩ 0 0).1.createCount ≤ 1 := by
  decide

/-- C1 counterexample: a Won state has `gameOver = true` but
`currentRow = 0 < MaxGuesses`, so the `currentRow >= MaxGuesses` guard does
not fire: `UpdateGameState` appends to the guess history and advances
`currentRow`, refuting "transition is a no-op on every terminal state". -/
theorem C1_counterexample :
    wonState.gameOver = true ∧
    (updateGameState wonState "OTHER" "APPLE"
        (List.replicate wordLength (GuessResult.mk "" "")) false 0).guessHistory
      ≠ wonState.guessHistory ∧
    (updateGameState wonState "OTHER" "APPLE"
        (List.replicate wordLength (GuessResult.mk "" "")) false 0).currentRow
      ≠ wonState.currentRow := by
  decide

/-- C1 amended: the transition guard is on the row index, not on the
terminal flag — for every state with `currentRow ≥ MaxGuesses` (which
covers every Lost state) `UpdateGameState` returns the state unchanged; a
Won state with `currentRow < MaxGuesses` is instead kept out of the
transition by the guess flow's game-over validation. -/
theorem C1_row_guard_no_op (s : GameState) (guess targetWord : String)
    (result : List GuessResult) (isInvalid : Bool) (now : Int)
    (h : s.currentRow ≥ maxGuesses) :
    updateGameState s guess targetWord result isInvalid now = s := by
  unfold updateGameState
  rw [if_pos h]

/-- C1 witness: the guard fires on the concrete lost state. -/
theorem C1_row_guard_no_op_witness :
    lostState.currentRow ≥ maxGuesses ∧
    updateGameState lostState "OTHER" "APPLE"
        (List.replicate wordLength (GuessResult.mk "" "")) false 7 = lostState :=
  ⟨by decide,
   C1_row_guard_no_op lostState "OTHER" "APPLE"
     (List.replicate wordLength (GuessResult.mk "" "")) false 7 (by decide)⟩

/-- C9: every validation failure of the guess flow (game over, word not
accepted, duplicate, wrong length, no attempts remaining) returns the game
state exactly as it was — in particular guesses, guessHistory, currentRow,
won, gameOver and targetWord are unchanged. -/
theorem C9_error_leaves_state_unchanged (app : AppModel) (s : GameState)
    (rawGuess : String) (rnd : Nat) (now : Int) (e : String)
    (h : (submitGuess app s rawGuess rnd now).2 = some e) :
    (submitGuess app s rawGuess rnd now).1 = s := by
  unfold submitGuess at h ⊢
  split_ifs at h ⊢ <;> try simp_all
  all_goals split_ifs at h ⊢ <;> simp_all

/-- C9 witness: a duplicate guess is rejected and the concrete state is
returned untouched. -/
theorem C9_error_leaves_state_unchanged_witness :
    (submitGuess appFixture { freshState with guessHistory := ["OTHER"] }
        "OTHER" 0 0).2 = some errorCodeDuplicateGuess ∧
    (submitGuess appFixture { freshState with guessHistory := ["OTHER"] }
        "OTHER" 0 0).1 = { freshState with guessHistory := ["OTHER"] } :=
  ⟨by decide,
   C9_error_leaves_state_unchanged appFixture
     { freshState with guessHistory := ["OTHER"] } "OTHER" 0 0
     errorCodeDuplicateGuess (by decide)⟩


/-- C3 counterexample: the guess "ABCD" submitted to a fresh game fails both
the length check and the acceptance check; under the claimed order
(length before acceptance) the error would be `invalid_length`, but the
code checks acceptance first and returns `word_not_accepted`. -/
theorem C3_counterexample :
    (normalizeGuess "ABCD").length ≠ wordLength ∧
    ¬ isAcceptedWord appFixture (normalizeGuess "ABCD") ∧
    freshState.gameOver = false ∧
    (submitGuess appFixture freshState "ABCD" 0 0).2 = some errorCodeWordNotAccepted ∧
    errorCodeWordNotAccepted ≠ errorCodeInvalidLength := by
  decide

/-- C3 amended: the guess flow validates in the order terminal-state
(game over), acceptance, duplicate, length, attempts-remaining, and only
then transitions; for an input failing several validations the reported
error code is that of the earliest failing check in THIS order.  Each
biconditional characterizes exactly when each code is returned. -/
theorem C3_validation_order (app : AppModel) (s : GameState) (rawGuess : String)
    (rnd : Nat) (now : Int) :
    ((submitGuess app s rawGuess rnd now).2 = some errorCodeGameOver ↔
      s.gameOver = true) ∧
    ((submitGuess app s rawGuess rnd now).2 = some errorCodeWordNotAccepted ↔
      s.gameOver = false ∧ ¬ isAcceptedWord app (normalizeGuess rawGuess)) ∧
    ((submitGuess app s rawGuess rnd now).2 = some errorCodeDuplicateGuess ↔
      s.gameOver = false ∧ isAcceptedWord app (normalizeGuess rawGuess) ∧
        normalizeGuess rawGuess ∈ s.guessHistory) ∧
    ((submitGuess app s rawGuess rnd now).2 = some errorCodeInvalidLength ↔
      s.gameOver = false ∧ isAcceptedWord app (normalizeGuess rawGuess) ∧
        normalizeGuess rawGuess ∉ s.guessHistory ∧
        (normalizeGuess rawGuess).length ≠ wordLength) ∧
    ((submitGuess app s rawGuess rnd now).2 = some errorCodeNoMoreGuesses ↔
      s.gameOver = false ∧ isAcceptedWord app (normalizeGuess rawGuess) ∧
        normalizeGuess rawGuess ∉ s.guessHistory ∧
        (normalizeGuess rawGuess).length = wordLength ∧
        s.currentRow ≥ maxGuesses) ∧
    ((submitGuess app s rawGuess rnd now).2 = none ↔
      s.gameOver = false ∧ isAcceptedWord app (normalizeGuess rawGuess) ∧
        normalizeGuess rawGuess ∉ s.guessHistory ∧
        (normalizeGuess rawGuess).length = wordLength ∧
        s.currentRow < maxGuesses) := by
  unfold submitGuess
  by_cases h1 : s.gameOver <;>
    by_cases h2 : isAcceptedWord app (normalizeGuess rawGuess) <;>
      by_cases h3 : normalizeGuess rawGuess ∈ s.guessHistory <;>
        by_cases h4 : (normalizeGuess rawGuess).length = wordLength <;>
          by_cases h5 : maxGuesses ≤ s.currentRow <;>
            (try simp only [if_pos h5]) <;> (try simp only [if_neg h5]) <;>
            simp_all [errorCodeGameOver, errorCodeWordNotAccepted,
              errorCodeDuplicateGuess, errorCodeInvalidLength,
              errorCodeNoMoreGuesses, maxGuesses, wordLength]


/-- Helper: the draw-with-fallback used to model `availableWords[n]` /
`availableWords[0]` always lands inside the list when it is nonempty. -/
theorem getD_headD_mem {α : Type} (l : List α) (d : α) (n : Nat) (h : l ≠ []) :
    l.getD n (l.headD d) ∈ l := by
  by_cases hn : n < l.length
  · rw [List.getD_eq_getElem l _ hn]
    exact List.getElem_mem hn
  · rw [List.getD_eq_default l _ (Nat.le_of_not_lt hn)]
    cases l with
    | nil => exact absurd rfl h
    | cons a as => exact List.mem_cons_self a as

/-- C5: for every exclusion list that is a proper subset of the catalog's
words (the empty list included), `GetRandomWordEntryExcluding` returns a
catalog entry whose word is not excluded, with `exhausted = false`; for an
exclusion list covering the whole (nonempty) catalog it returns some entry
of the full catalog with `exhausted = true`. -/
theorem C5_randomTargetExcluding (wl : List WordEntry) (completedWords : List String)
    (rnd : Nat) (hwl : wl ≠ []) :
    ((∀ w ∈ completedWords, w ∈ wl.map (fun e => e.word)) →
      (∃ e ∈ wl, e.word ∉ completedWords) →
      (getRandomWordEntryExcluding wl completedWords rnd).1 ∈ wl ∧
      (getRandomWordEntryExcluding wl completedWords rnd).1.word ∉ completedWords ∧
      (getRandomWordEntryExcluding wl completedWords rnd).2 = false) ∧
    ((∀ e ∈ wl, e.word ∈ completedWords) →
      (getRandomWordEntryExcluding wl completedWords rnd).1 ∈ wl ∧
      (getRandomWordEntryExcluding wl completedWords rnd).2 = true) := by
  constructor
  · intro _ hex
    unfold getRandomWordEntryExcluding
    by_cases hcw : completedWords.length = 0
    · have : completedWords = [] := List.length_eq_zero.mp hcw
      subst this
      simp only [if_pos rfl]
      refine ⟨getD_headD_mem wl default rnd hwl, ?_, rfl⟩
      simp [getRandomWordEntry]
    · rw [if_neg hcw]
      have havail : wl.filter (fun e => !(completedWords.contains e.word)) ≠ [] := by
        obtain ⟨e, he, hew⟩ := hex
        intro hnil
        have : e ∈ wl.filter (fun e => !(completedWords.contains e.word)) := by
          rw [List.mem_filter]
          exact ⟨he, by simp [List.contains, List.elem_iff, hew]⟩
        rw [hnil] at this
        exact absurd this (List.not_mem_nil e)
      rw [if_neg (fun h0 => havail (List.length_eq_zero.mp h0))]
      have hmem : (wl.filter (fun e => !(completedWords.contains e.word))).getD rnd
          ((wl.filter (fun e => !(completedWords.contains e.word))).headD default)
          ∈ wl.filter (fun e => !(completedWords.contains e.word)) :=
        getD_headD_mem _ default rnd havail
      rw [List.mem_filter] at hmem
      refine ⟨hmem.1, ?_, rfl⟩
      have := hmem.2
      simpa [List.contains, List.elem_iff] using this
  · intro hall
    unfold getRandomWordEntryExcluding
    have hcw : completedWords ≠ [] := by
      cases wl with
      | nil => exact absurd rfl hwl
      | cons a as =>
        intro hnil
        have := hall a (List.mem_cons_self a as)
        rw [hnil] at this
        exact absurd this (List.not_mem_nil _)
    rw [if_neg (fun h0 => hcw (List.length_eq_zero.mp h0))]
    have havail : wl.filter (fun e => !(completedWords.contains e.word)) = [] := by
      rw [List.filter_eq_nil_iff]
      intro e he
      simp [List.contains, List.elem_iff, hall e he]
    rw [havail]
    simp only [List.length_nil, if_pos rfl]
    exact ⟨getD_headD_mem wl default rnd hwl, rfl⟩

/-- C5 witness: with catalog {APPLE, LEMON} and exclusion {APPLE}, the
entry LEMON is chosen and not exhausted; excluding both words signals
exhaustion with an entry from the full catalog. -/
theorem C5_randomTargetExcluding_witness :
    ((getRandomWordEntryExcluding [⟨"APPLE", "a"⟩, ⟨"LEMON", "b"⟩] ["APPLE"] 0).1
        ∈ [WordEntry.mk "APPLE" "a", WordEntry.mk "LEMON" "b"] ∧
      (getRandomWordEntryExcluding [⟨"APPLE", "a"⟩, ⟨"LEMON", "b"⟩] ["APPLE"] 0).1.word
        ∉ ["APPLE"] ∧
      (getRandomWordEntryExcluding [⟨"APPLE", "a"⟩, ⟨"LEMON", "b"⟩] ["APPLE"] 0).2 = false) ∧
    ((getRandomWordEntryExcluding [⟨"APPLE", "a"⟩, ⟨"LEMON", "b"⟩] ["APPLE", "LEMON"] 0).1
        ∈ [WordEntry.mk "APPLE" "a", WordEntry.mk "LEMON" "b"] ∧
      (getRandomWordEntryExcluding [⟨"APPLE", "a"⟩, ⟨"LEMON", "b"⟩] ["APPLE", "LEMON"] 0).2
        = true) :=
  ⟨(C5_randomTargetExcluding [⟨"APPLE", "a"⟩, ⟨"LEMON", "b"⟩] ["APPLE"] 0
      (by decide)).1 (by decide) ⟨⟨"LEMON", "b"⟩, by decide, by decide⟩,
   (C5_randomTargetExcluding [⟨"APPLE", "a"⟩, ⟨"LEMON", "b"⟩] ["APPLE", "LEMON"] 0
      (by decide)).2 (by decide)⟩


/-- Helper: whatever branch the limiter sweep takes, its result is a subset
of the TTL survivors. -/
theorem cleanup_subset_survivors (m : List (String × RateLimiterWithTime))
    (cutoff : Int) (kv : String × RateLimiterWithTime)
    (h : kv ∈ cleanupStaleRateLimiters m cutoff) : kv ∈ limiterSurvivors m cutoff := by
  unfold cleanupStaleRateLimiters at h
  split_ifs at h
  · exact (List.mem_filter.mp h).1
  · exact h
  · exact h

/-- C6: after one eviction sweep, every entry whose last access time
precedes the cutoff is gone, and — outside the limiter map's emergency size
purge — every entry whose last access time does not precede the cutoff is
still present, unmodified. -/
theorem C6_eviction_sweep
    (sessions : List (String × GameState)) (m : List (String × RateLimiterWithTime))
    (cutoff : Int) (skv : String × GameState) (kv : String × RateLimiterWithTime) :
    (skv ∈ cleanupStaleSessions sessions cutoff ↔
      skv ∈ sessions ∧ ¬ skv.2.lastAccessTime < cutoff) ∧
    (kv.2.lastAccess < cutoff → kv ∉ cleanupStaleRateLimiters m cutoff) ∧
    ((limiterSurvivors m cutoff).length ≤ 50000 →
      (kv ∈ cleanupStaleRateLimiters m cutoff ↔
        kv ∈ m ∧ ¬ kv.2.lastAccess < cutoff)) := by
  refine ⟨?_, ?_, ?_⟩
  · simp [cleanupStaleSessions, List.mem_filter]
  · intro hold hmem
    have := cleanup_subset_survivors m cutoff kv hmem
    rw [limiterSurvivors, List.mem_filter] at this
    simp [hold] at this
  · intro hle
    have hcl : cleanupStaleRateLimiters m cutoff = limiterSurvivors m cutoff := by
      unfold cleanupStaleRateLimiters
      split_ifs with h1 h2
      · omega
      · rfl
      · rfl
    rw [hcl, limiterSurvivors, List.mem_filter]
    simp

/-- C6 witness: a stale session entry is evicted and a fresh one survives a
concrete sweep; the same holds for a small limiter map. -/
theorem C6_eviction_sweep_witness :
    (("old", { freshState with lastAccessTime := -5 })
        ∉ cleanupStaleSessions
          [("old", { freshState with lastAccessTime := -5 }), ("new", freshState)] 0) ∧
    (("new", freshState)
        ∈ cleanupStaleSessions
          [("old", { freshState with lastAccessTime := -5 }), ("new", freshState)] 0) ∧
    (("o", RateLimiterWithTime.mk 0 (-5))
        ∉ cleanupStaleRateLimiters
          [("o", RateLimiterWithTime.mk 0 (-5)), ("n", RateLimiterWithTime.mk 1 3)] 0) ∧
    (("n", RateLimiterWithTime.mk 1 3)
        ∈ cleanupStaleRateLimiters
          [("o", RateLimiterWithTime.mk 0 (-5)), ("n", RateLimiterWithTime.mk 1 3)] 0) := by
  refine ⟨?_, ?_, ?_, ?_⟩
  · intro h
    have := (C6_eviction_sweep
        [("old", { freshState with lastAccessTime := -5 }), ("new", freshState)]
        [] 0 ("old", { freshState with lastAccessTime := -5 })
        ("o", RateLimiterWithTime.mk 0 (-5))).1.mp h
    exact absurd (by decide) this.2
  · exact (C6_eviction_sweep
        [("old", { freshState with lastAccessTime := -5 }), ("new", freshState)]
        [] 0 ("new", freshState) ("o", RateLimiterWithTime.mk 0 (-5))).1.mpr
      ⟨by decide, by decide⟩
  · exact (C6_eviction_sweep []
        [("o", RateLimiterWithTime.mk 0 (-5)), ("n", RateLimiterWithTime.mk 1 3)]
        0 ("x", freshState) ("o", RateLimiterWithTime.mk 0 (-5))).2.1 (by decide)
  · exact ((C6_eviction_sweep []
        [("o", RateLimiterWithTime.mk 0 (-5)), ("n", RateLimiterWithTime.mk 1 3)]
        0 ("x", freshState) ("n", RateLimiterWithTime.mk 1 3)).2.2 (by decide)).mpr
      ⟨by decide, by decide⟩


/-- C8: creation (`CreateNewGame`, `CreateNewGameWithCompletedWords`) and
retry produce states with `gameOver = false` and empty `targetWord`, and
for a nonempty target `UpdateGameState` preserves the invariant
"`targetWord` nonempty iff `gameOver`"; moreover, starting from a
non-terminal state, the transition reveals the target exactly on the call
where `gameOver` becomes true and leaves `targetWord` untouched otherwise. -/
theorem C8_targetWord_gameOver_invariant :
    (∀ (wl : List WordEntry) (rnd : Nat) (now : Int),
      (createNewGame wl rnd now).gameOver = false ∧
      (createNewGame wl rnd now).targetWord = "") ∧
    (∀ (wl : List WordEntry) (cw : List String) (rnd : Nat) (now : Int),
      (createNewGameWithCompletedWords wl cw rnd now).1.gameOver = false ∧
      (createNewGameWithCompletedWords wl cw rnd now).1.targetWord = "") ∧
    (∀ (s : GameState) (now : Int),
      (retryWord s now).gameOver = false ∧ (retryWord s now).targetWord = "") ∧
    (∀ (s : GameState) (guess targetWord : String) (result : List GuessResult)
        (isInvalid : Bool) (now : Int), targetWord ≠ "" → targetInv s →
      targetInv (updateGameState s guess targetWord result isInvalid now)) ∧
    (∀ (s : GameState) (guess targetWord : String) (result : List GuessResult)
        (isInvalid : Bool) (now : Int), s.gameOver = false →
      ((updateGameState s guess targetWord result isInvalid now).gameOver = true →
        (updateGameState s guess targetWord result isInvalid now).targetWord
          = targetWord) ∧
      ((updateGameState s guess targetWord result isInvalid now).gameOver = false →
        (updateGameState s guess targetWord result isInvalid now).targetWord
          = s.targetWord)) := by
  refine ⟨fun wl rnd now => ⟨rfl, rfl⟩,
          fun wl cw rnd now => ⟨rfl, rfl⟩,
          fun s now => ⟨rfl, rfl⟩, ?_, ?_⟩
  · intro s guess targetWord result isInvalid now htw hinv
    unfold targetInv at hinv ⊢
    unfold updateGameState
    by_cases hrow : maxGuesses ≤ s.currentRow
    · simp_all [if_pos hrow]
    · rw [if_neg hrow]
      by_cases hwin : !isInvalid ∧ guess = targetWord
      · simp only [if_pos hwin]
        simp_all
      · simp only [if_neg hwin]
        by_cases hlost : maxGuesses ≤ s.currentRow + 1
        · simp only [if_pos hlost]
          simp_all
        · simp only [if_neg hlost]
          by_cases hgo : s.gameOver = true <;> simp_all
  · intro s guess targetWord result isInvalid now hgo
    unfold updateGameState
    by_cases hrow : maxGuesses ≤ s.currentRow
    · simp_all [if_pos hrow]
    · rw [if_neg hrow]
      by_cases hwin : !isInvalid ∧ guess = targetWord
      · simp only [if_pos hwin]
        simp_all
      · simp only [if_neg hwin]
        by_cases hlost : maxGuesses ≤ s.currentRow + 1
        · simp only [if_pos hlost]
          simp_all
        · simp only [if_neg hlost]
          simp_all

/-- C8 witness: the invariant is preserved on a concrete winning
transition, and the target is revealed exactly there. -/
theorem C8_targetWord_gameOver_invariant_witness :
    (createNewGame [⟨"APPLE", "fruit"⟩] 0 0).gameOver = false ∧
    targetInv (updateGameState freshState "APPLE" "APPLE"
      (checkGuess "APPLE".toList "APPLE".toList) false 0) ∧
    (updateGameState freshState "APPLE" "APPLE"
      (checkGuess "APPLE".toList "APPLE".toList) false 0).targetWord = "APPLE" := by
  refine ⟨(C8_targetWord_gameOver_invariant.1 [⟨"APPLE", "fruit"⟩] 0 0).1, ?_, ?_⟩
  · exact C8_targetWord_gameOver_invariant.2.2.2.1 freshState "APPLE" "APPLE"
      (checkGuess "APPLE".toList "APPLE".toList) false 0 (by decide)
      (by unfold targetInv; simp [freshState])
  · exact (C8_targetWord_gameOver_invariant.2.2.2.2 freshState "APPLE" "APPLE"
      (checkGuess "APPLE".toList "APPLE".toList) false 0 (by decide)).1 (by decide)


/-- Transitivity of the purge sort comparison. -/
theorem limiterLe_trans (a b c : String × RateLimiterWithTime) :
    limiterLe a b → limiterLe b c → limiterLe a c := by
  simp only [limiterLe, decide_eq_true_eq]
  omega

/-- Totality of the purge sort comparison. -/
theorem limiterLe_total (a b : String × RateLimiterWithTime) :
    limiterLe a b || limiterLe b a := by
  simp only [limiterLe]
  by_cases h : a.2.lastAccess ≤ b.2.lastAccess
  · simp [h]
  · simp [h]
    omega

/-- Helper: deleting, from a key-distinct entry list, the keys of the first
`k` entries of its sort by last access leaves exactly the `length - k`
newest entries: the result has that length, is a subset of the input, and
every removed entry is at most as recent as every kept entry. -/
theorem purge_oldest_half (S : List (String × RateLimiterWithTime))
    (hnd : (S.map Prod.fst).Nodup) (k : Nat) :
    (S.filter (fun kv =>
        !((((S.mergeSort limiterLe).take k).map Prod.fst).contains kv.1))).length
      = S.length - k ∧
    (∀ kv ∈ S.filter (fun kv =>
        !((((S.mergeSort limiterLe).take k).map Prod.fst).contains kv.1)), kv ∈ S) ∧
    (∀ kv ∈ S, kv ∉ S.filter (fun kv =>
        !((((S.mergeSort limiterLe).take k).map Prod.fst).contains kv.1)) →
      ∀ kv' ∈ S.filter (fun kv =>
        !((((S.mergeSort limiterLe).take k).map Prod.fst).contains kv.1)),
        kv.2.lastAccess ≤ kv'.2.lastAccess) := by
  have hperm : List.Perm (S.mergeSort limiterLe) S := List.mergeSort_perm S limiterLe
  have hpair : (S.mergeSort limiterLe).Pairwise (fun a b => limiterLe a b = true) :=
    List.sorted_mergeSort limiterLe_trans limiterLe_total S
  set sorted := S.mergeSort limiterLe with hsorteddef
  set T := sorted.take k with hTdef
  set D := sorted.drop k with hDdef
  set p : String × RateLimiterWithTime → Bool :=
    fun kv => !((T.map Prod.fst).contains kv.1) with hpdef
  have htd : T ++ D = sorted := List.take_append_drop k sorted
  have hndS : (sorted.map Prod.fst).Nodup := ((hperm.map Prod.fst).nodup_iff).mpr hnd
  have hmapsplit : sorted.map Prod.fst = T.map Prod.fst ++ D.map Prod.fst := by
    rw [← htd, List.map_append]
  have hdisj : ∀ key ∈ T.map Prod.fst, key ∉ D.map Prod.fst := by
    rw [hmapsplit, List.nodup_append] at hndS
    intro key hkT hkD
    exact hndS.2.2 hkT hkD
  have hTp : T.filter p = [] := by
    rw [List.filter_eq_nil_iff]
    intro kv hkv
    have : kv.1 ∈ T.map Prod.fst := List.mem_map_of_mem Prod.fst hkv
    simp [hpdef, List.contains, List.elem_iff, this]
  have hDp : D.filter p = D := by
    rw [List.filter_eq_self]
    intro kv hkv
    have hmem : kv.1 ∈ D.map Prod.fst := List.mem_map_of_mem Prod.fst hkv
    have hnot : kv.1 ∉ T.map Prod.fst := fun hin => hdisj kv.1 hin hmem
    simp [hpdef, List.contains, List.elem_iff, hnot]
  have hresperm : List.Perm (S.filter p) D := by
    have h1 : List.Perm (S.filter p) (sorted.filter p) := hperm.symm.filter p
    have h2 : sorted.filter p = D := by
      rw [← htd, List.filter_append, hTp, hDp, List.nil_append]
    rw [h2] at h1
    exact h1
  refine ⟨?_, ?_, ?_⟩
  · rw [hresperm.length_eq, hDdef, List.length_drop, hperm.length_eq]
  · intro kv hkv
    exact (List.mem_filter.mp hkv).1
  · intro kv hkvS hkvout kv' hkv'
    have hkvsorted : kv ∈ sorted := hperm.mem_iff.mpr hkvS
    have hkvTD : kv ∈ T ++ D := by rw [htd]; exact hkvsorted
    have hkvT : kv ∈ T := by
      rcases List.mem_append.mp hkvTD with h | h
      · exact h
      · exact absurd (hresperm.mem_iff.mpr h) hkvout
    have hkv'D : kv' ∈ D := hresperm.mem_iff.mp hkv'
    have hp : (T ++ D).Pairwise (fun a b => limiterLe a b = true) := by
      rw [htd]; exact hpair
    have := (List.pairwise_append.mp hp).2.2 kv hkvT kv' hkv'D
    simpa [limiterLe, decide_eq_true_eq] using this

/-- C7: after the TTL phase of the limiter sweep, if more than 50000 entries
survive the sweep removes exactly `floor(n/2)` entries — the oldest by last
access time — while if at most 50000 survive (even above the 10000
high-water mark) no surviving entry is removed. -/
theorem C7_emergency_purge (m : List (String × RateLimiterWithTime)) (cutoff : Int)
    (hnd : (m.map Prod.fst).Nodup) :
    ((limiterSurvivors m cutoff).length ≤ 50000 →
      cleanupStaleRateLimiters m cutoff = limiterSurvivors m cutoff) ∧
    (50000 < (limiterSurvivors m cutoff).length →
      (cleanupStaleRateLimiters m cutoff).length
          = (limiterSurvivors m cutoff).length
            - (limiterSurvivors m cutoff).length / 2 ∧
      (∀ kv ∈ cleanupStaleRateLimiters m cutoff, kv ∈ limiterSurvivors m cutoff) ∧
      (∀ kv ∈ limiterSurvivors m cutoff, kv ∉ cleanupStaleRateLimiters m cutoff →
        ∀ kv' ∈ cleanupStaleRateLimiters m cutoff,
          kv.2.lastAccess ≤ kv'.2.lastAccess)) := by
  have hndS : ((limiterSurvivors m cutoff).map Prod.fst).Nodup :=
    List.Nodup.sublist (List.Sublist.map Prod.fst (List.filter_sublist m)) hnd
  constructor
  · intro hle
    unfold cleanupStaleRateLimiters
    split_ifs with h1 h2
    · omega
    · rfl
    · rfl
  · intro hgt
    have key := purge_oldest_half (limiterSurvivors m cutoff) hndS
      ((limiterSurvivors m cutoff).length / 2)
    have hcl : cleanupStaleRateLimiters m cutoff
        = (limiterSurvivors m cutoff).filter (fun kv =>
            !((((limiterSurvivors m cutoff).mergeSort limiterLe).take
                ((limiterSurvivors m cutoff).length / 2)).map Prod.fst).contains kv.1) := by
      unfold cleanupStaleRateLimiters purgeVictims
      rw [if_pos (by omega), if_pos (by omega)]
    rw [hcl]
    exact ⟨key.1, key.2.1, key.2.2⟩

/-- C7 witness: on a concrete two-entry map whose survivor count is under
the hard cap, the sweep removes nothing beyond the TTL deletions. -/
theorem C7_emergency_purge_witness :
    cleanupStaleRateLimiters
        [("a", RateLimiterWithTime.mk 0 (-3)), ("b", RateLimiterWithTime.mk 1 4)] 0
      = limiterSurvivors
        [("a", RateLimiterWithTime.mk 0 (-3)), ("b", RateLimiterWithTime.mk 1 4)] 0 :=
  (C7_emergency_purge
      [("a", RateLimiterWithTime.mk 0 (-3)), ("b", RateLimiterWithTime.mk 1 4)] 0
      (by decide)).1 (by decide)


/-- Helper: a successful pass-2 scan splits the target copy at the first
occurrence of the guessed letter and blanks exactly that occurrence. -/
theorem consumeFirst_eq_some {c : Char} :
    ∀ {ts ts' : List Char}, consumeFirst c ts = some ts' →
      ∃ pre post, ts = pre ++ c :: post ∧ c ∉ pre ∧ ts' = pre ++ ' ' :: post := by
  intro ts
  induction ts with
  | nil => intro ts' h; simp [consumeFirst] at h
  | cons t ts ih =>
    intro ts' h
    by_cases htc : t = c
    · subst htc
      rw [consumeFirst, if_pos rfl] at h
      refine ⟨[], ts, by simp, by simp, ?_⟩
      simp only [List.nil_append]
      exact (Option.some.inj h).symm
    · rw [consumeFirst, if_neg htc] at h
      cases hrec : consumeFirst c ts with
      | none => rw [hrec] at h; simp at h
      | some ts2 =>
        rw [hrec] at h
        simp only [Option.some.injEq] at h
        obtain ⟨pre, post, h1, h2, h3⟩ := ih hrec
        refine ⟨t :: pre, post, by simp [h1], ?_, by simp [← h, h3]⟩
        simp only [List.mem_cons, not_or]
        exact ⟨fun hc => htc hc.symm, h2⟩

/-- Helper: consuming an occurrence of `c` lowers the count of `c` by one
(for a letter distinct from the blank sentinel). -/
theorem count_consumeFirst_self {c : Char} (hc : c ≠ ' ') {ts ts' : List Char}
    (h : consumeFirst c ts = some ts') : ts.count c = ts'.count c + 1 := by
  obtain ⟨pre, post, h1, _, h3⟩ := consumeFirst_eq_some h
  subst h1
  subst h3
  simp [List.count_append, List.count_cons, Ne.symm hc]
  omega

/-- Helper: consuming an occurrence of a different letter `d` leaves the
count of `c` unchanged (again for `c` distinct from the blank). -/
theorem count_consumeFirst_other {c d : Char} (hcd : c ≠ d) (hc : c ≠ ' ')
    {ts ts' : List Char} (h : consumeFirst d ts = some ts') :
    ts'.count c = ts.count c := by
  obtain ⟨pre, post, h1, _, h3⟩ := consumeFirst_eq_some h
  subst h1
  subst h3
  simp [List.count_append, List.count_cons, Ne.symm hcd, Ne.symm hc]

/-- Helper: counting invariant of pass 2 — for any letter other than the
blank sentinel, the Correct/Present hits for that letter plus its remaining
occurrences in the target copy stay equal to the pass-1 `correct` marks for
the letter plus its occurrences in the incoming target copy. -/
theorem pass2_count (c : Char) (hc : c ≠ ' ') :
    ∀ (g : List Char) (ms : List (Option String)) (tc : List Char),
      (∀ m ∈ ms, m = some guessStatusCorrect ∨ m = none) →
      hitCount c g (pass2 g ms tc).1 + ((pass2 g ms tc).2).count c
        = markedCorrect c g ms + tc.count c := by
  intro g
  induction g with
  | nil => intro ms tc hms; simp [pass2, hitCount, markedCorrect]
  | cons gc gs ih =>
    intro ms tc hms
    cases ms with
    | nil => simp [pass2, hitCount, markedCorrect]
    | cons m ms =>
      have hms' : ∀ x ∈ ms, x = some guessStatusCorrect ∨ x = none :=
        fun x hx => hms x (List.mem_cons_of_mem _ hx)
      cases m with
      | some s =>
        have hs : s = guessStatusCorrect := by
          rcases hms (some s) (List.mem_cons_self _ _) with h | h
          · exact Option.some.inj h
          · simp at h
        subst hs
        have hIH := ih ms tc hms'
        simp only [pass2]
        simp [hitCount, markedCorrect]
        omega
      | none =>
        cases hcons : consumeFirst gc tc with
        | some tc2 =>
          have hIH := ih ms tc2 hms'
          simp only [pass2, hcons]
          by_cases hgc : gc = c
          · subst hgc
            have hcount := count_consumeFirst_self hc hcons
            simp [hitCount, markedCorrect, guessStatusPresent, guessStatusCorrect]
            omega
          · have hcount := count_consumeFirst_other (Ne.symm hgc) hc hcons
            simp [hitCount, markedCorrect, hgc]
            omega
        | none =>
          have hIH := ih ms tc hms'
          simp only [pass2, hcons]
          simp [hitCount, markedCorrect, guessStatusAbsent, guessStatusCorrect,
            guessStatusPresent]
          omega

/-- Helper: after pass 1, for any letter other than the blank sentinel, the
`correct` marks for the letter plus its occurrences left in the blanked
target copy account exactly for its occurrences in the target. -/
theorem pass1_count (c : Char) (hc : c ≠ ' ') :
    ∀ (g t : List Char), g.length = t.length →
      markedCorrect c g (pass1Marks g t) + (pass1Target g t).count c = t.count c := by
  intro g
  induction g with
  | nil =>
    intro t ht
    cases t with
    | nil => simp [pass1Marks, pass1Target, markedCorrect]
    | cons a as => simp at ht
  | cons gc gs ih =>
    intro t ht
    cases t with
    | nil => simp at ht
    | cons tch ts =>
      have hlen : gs.length = ts.length := by simpa using ht
      have hIH := ih ts hlen
      simp only [pass1Marks, pass1Target] at hIH ⊢
      rw [List.zipWith_cons_cons, List.zipWith_cons_cons]
      by_cases heq : gc = tch
      · rw [if_pos heq, if_pos heq]
        by_cases hgc : gc = c
        · have htchc : tch = c := heq ▸ hgc
          simp [markedCorrect, hgc, List.count_cons, Ne.symm hc, htchc]
          omega
        · have htchc : ¬ tch = c := fun h => hgc (heq.trans h)
          simp [markedCorrect, hgc, List.count_cons, Ne.symm hc, htchc]
          omega
      · rw [if_neg heq, if_neg heq]
        simp [markedCorrect, List.count_cons]
        omega

/-- Helper: pass-1 marks are `correct` or empty. -/
theorem pass1Marks_mem :
    ∀ (g t : List Char) (m : Option String), m ∈ pass1Marks g t →
      m = some guessStatusCorrect ∨ m = none := by
  intro g
  induction g with
  | nil => intro t m hm; simp [pass1Marks] at hm
  | cons gc gs ih =>
    intro t m hm
    cases t with
    | nil => simp [pass1Marks] at hm
    | cons tch ts =>
      simp only [pass1Marks, List.zipWith, List.mem_cons] at hm
      rcases hm with hm | hm
      · by_cases h : gc = tch
        · left; rw [hm, if_pos h]
        · right; rw [hm, if_neg h]
      · exact ih ts m hm

/-- Helper: every status pass 2 emits is correct, present or absent. -/
theorem pass2_statuses_mem :
    ∀ (g : List Char) (ms : List (Option String)) (tc : List Char),
      (∀ m ∈ ms, m = some guessStatusCorrect ∨ m = none) →
      ∀ s ∈ (pass2 g ms tc).1,
        s = guessStatusCorrect ∨ s = guessStatusPresent ∨ s = guessStatusAbsent := by
  intro g
  induction g with
  | nil => intro ms tc hms s hs; simp [pass2] at hs
  | cons gc gs ih =>
    intro ms tc hms s hs
    cases ms with
    | nil => simp [pass2] at hs
    | cons m ms =>
      have hms' : ∀ x ∈ ms, x = some guessStatusCorrect ∨ x = none :=
        fun x hx => hms x (List.mem_cons_of_mem _ hx)
      cases m with
      | some s0 =>
        have hs0 : s0 = guessStatusCorrect := by
          rcases hms (some s0) (List.mem_cons_self _ _) with h | h
          · exact Option.some.inj h
          · simp at h
        subst hs0
        simp only [pass2, List.mem_cons] at hs
        rcases hs with hs | hs
        · left; exact hs
        · exact ih ms tc hms' s hs
      | none =>
        cases hcons : consumeFirst gc tc with
        | some tc2 =>
          simp only [pass2, hcons, List.mem_cons] at hs
          rcases hs with hs | hs
          · right; left; exact hs
          · exact ih ms tc2 hms' s hs
        | none =>
          simp only [pass2, hcons, List.mem_cons] at hs
          rcases hs with hs | hs
          · right; right; exact hs
          · exact ih ms tc hms' s hs

/-- Helper: pass 2 emits one status per position (up to the marks list). -/
theorem pass2_length :
    ∀ (g : List Char) (ms : List (Option String)) (tc : List Char),
      (pass2 g ms tc).1.length = min g.length ms.length := by
  intro g
  induction g with
  | nil => intro ms tc; simp [pass2]
  | cons gc gs ih =>
    intro ms tc
    cases ms with
    | nil => simp [pass2]
    | cons m ms =>
      cases m with
      | some s => simp [pass2, ih, Nat.succ_min_succ]
      | none =>
        cases hcons : consumeFirst gc tc with
        | some tc2 => simp [pass2, hcons, ih, Nat.succ_min_succ]
        | none => simp [pass2, hcons, ih, Nat.succ_min_succ]

/-- Helper: single-character strings are equal only for equal characters. -/
theorem char_toString_eq_iff {a b : Char} : a.toString = b.toString ↔ a = b := by
  constructor
  · intro h
    have h2 := congrArg String.data h
    simpa [Char.toString, String.singleton, String.push] using h2
  · intro h
    rw [h]

/-- Helper: the letter-and-status count over the assembled rows agrees with
the positional count over guess characters and statuses. -/
theorem resultHitCount_eq_hitCount (c : Char) :
    ∀ (g : List Char) (ss : List String),
      resultHitCount c (List.zipWith (fun gc s => GuessResult.mk gc.toString s) g ss)
        = hitCount c g ss := by
  intro g
  induction g with
  | nil => intro ss; simp [resultHitCount, hitCount]
  | cons gc gs ih =>
    intro ss
    cases ss with
    | nil => simp [resultHitCount, hitCount]
    | cons s ss =>
      have hrec := ih ss
      simp only [resultHitCount, List.zipWith, List.countP_cons] at hrec ⊢
      rw [hrec]
      by_cases hgc : gc = c
      · subst hgc
        by_cases hs : s = guessStatusCorrect ∨ s = guessStatusPresent
        · simp [hitCount, hs, char_toString_eq_iff]
          omega
        · simp [hitCount, hs, char_toString_eq_iff]
      · simp [hitCount, hgc, char_toString_eq_iff]

/-- Helper: a letter that does not occur in the guess scores no hits. -/
theorem hitCount_eq_zero_of_not_mem {c : Char} :
    ∀ (g : List Char) (ss : List String), c ∉ g → hitCount c g ss = 0 := by
  intro g
  induction g with
  | nil => intro ss _; cases ss <;> simp [hitCount]
  | cons gc gs ih =>
    intro ss hcm
    cases ss with
    | nil => simp [hitCount]
    | cons s ss =>
      simp only [List.mem_cons, not_or] at hcm
      simp [hitCount, Ne.symm hcm.1, ih ss hcm.2]

/-- Helper: the letters of the assembled rows are the guess characters. -/
theorem zipWith_letters :
    ∀ (g : List Char) (ss : List String), g.length ≤ ss.length →
      (List.zipWith (fun gc s => GuessResult.mk gc.toString s) g ss).map
          (fun r => r.letter)
        = g.map Char.toString := by
  intro g
  induction g with
  | nil => intro ss _; simp
  | cons gc gs ih =>
    intro ss hlen
    cases ss with
    | nil => simp at hlen
    | cons s ss =>
      simp only [List.zipWith, List.map_cons, List.map]
      rw [ih ss (by simpa using hlen)]


/-- Helper: each assembled row element takes its status from the status
list. -/
theorem zipWith_status_mem :
    ∀ (g : List Char) (ss : List String) (r : GuessResult),
      r ∈ List.zipWith (fun gc s => GuessResult.mk gc.toString s) g ss →
      r.status ∈ ss := by
  intro g
  induction g with
  | nil => intro ss r hr; simp at hr
  | cons gc gs ih =>
    intro ss r hr
    cases ss with
    | nil => simp at hr
    | cons s ss =>
      simp only [List.zipWith, List.mem_cons] at hr ⊢
      rcases hr with hr | hr
      · left; rw [hr]
      · right; exact ih ss r hr

/-- C4: for five-letter words (no blank characters in the guess), the score
assigns exactly one of correct/present/absent to each of the five
positions, the letters of the row are the guess letters, for every letter
the number of positions marked Correct or Present never exceeds that
letter's occurrences in the target, and a Present mark always consumes the
first (leftmost) unconsumed target occurrence. -/
theorem C4_checkGuess_sound (g t : List Char)
    (hg : g.length = 5) (ht : t.length = 5) (hgs : ' ' ∉ g) :
    (checkGuess g t).length = 5 ∧
    (∀ r ∈ checkGuess g t,
      r.status = guessStatusCorrect ∨ r.status = guessStatusPresent ∨
        r.status = guessStatusAbsent) ∧
    ((checkGuess g t).map (fun r => r.letter) = g.map Char.toString) ∧
    (∀ c : Char, resultHitCount c (checkGuess g t) ≤ t.count c) ∧
    (∀ (c : Char) (ts ts' : List Char), consumeFirst c ts = some ts' →
      ∃ pre post, ts = pre ++ c :: post ∧ c ∉ pre ∧ ts' = pre ++ ' ' :: post) := by
  have hmarks : ∀ m ∈ pass1Marks g t, m = some guessStatusCorrect ∨ m = none :=
    pass1Marks_mem g t
  have hmarkslen : (pass1Marks g t).length = 5 := by
    simp [pass1Marks, hg, ht]
  have hstatlen : (pass2 g (pass1Marks g t) (pass1Target g t)).1.length = 5 := by
    rw [pass2_length, hmarkslen, hg]
    simp
  refine ⟨?_, ?_, ?_, ?_, ?_⟩
  · simp [checkGuess, hg, hstatlen]
  · intro r hr
    have hmem : r.status ∈ (pass2 g (pass1Marks g t) (pass1Target g t)).1 :=
      zipWith_status_mem g _ r hr
    exact pass2_statuses_mem g (pass1Marks g t) (pass1Target g t) hmarks r.status hmem
  · unfold checkGuess
    exact zipWith_letters g _ (by rw [hstatlen, hg])
  · intro c
    unfold checkGuess
    rw [resultHitCount_eq_hitCount]
    by_cases hc : c = ' '
    · subst hc
      rw [hitCount_eq_zero_of_not_mem g _ hgs]
      exact Nat.zero_le _
    · have h2 := pass2_count c hc g (pass1Marks g t) (pass1Target g t) hmarks
      have h1 := pass1_count c hc g t (by rw [hg, ht])
      omega
  · intro c ts ts' h
    exact consumeFirst_eq_some h

/-- C4 witness: the score of "PLEAP" against "APPLE" (the spec's own
repeated-letter example) is five letters, all present, within the target
letter counts. -/
theorem C4_checkGuess_sound_witness :
    (checkGuess "PLEAP".toList "APPLE".toList).length = 5 ∧
    resultHitCount 'P' (checkGuess "PLEAP".toList "APPLE".toList)
      ≤ "APPLE".toList.count 'P' ∧
    (checkGuess "PLEAP".toList "APPLE".toList).map (fun r => r.letter)
      = "PLEAP".toList.map Char.toString := by
  have h := C4_checkGuess_sound "PLEAP".toList "APPLE".toList
    (by decide) (by decide) (by decide)
  exact ⟨h.1, h.2.2.2.1 'P', h.2.2.1⟩


/-- C3 witness: the order characterization applied to the concrete
wrong-length, unaccepted guess yields the acceptance error. -/
theorem C3_validation_order_witness :
    (submitGuess appFixture freshState "ABCD" 0 0).2 = some errorCodeWordNotAccepted :=
  (C3_validation_order appFixture freshState "ABCD" 0 0).2.1.mpr
    ⟨by decide, by decide⟩


end Vortludo
